import Mathlib

/-!
Verification of the curve-curve intersection node (`intersect_curves.py`).

The embedding models the node's pure orchestration logic over exact rational
arithmetic: points are triples of rationals, the numeric intersection backends
(`intersect_nurbs_curves`, FreeCAD's `intersectCC`) are abstract function
parameters, and Python exceptions are modelled with `Except`.
-/

namespace IntersectCurves

/-- A 3D point with exact rational coordinates (models a float triple). -/
abbrev Point : Type := ℚ × ℚ × ℚ

/-- Squared Euclidean distance between two points.  The source compares
`(Vector(p) - Vector(prev)).length > 1e-4`; in exact arithmetic this is
equivalent to comparing the squared distance against `1e-8`. -/
def distSq (p q : Point) : ℚ :=
  (p.1 - q.1) ^ 2 + (p.2.1 - q.2.1) ^ 2 + (p.2.2 - q.2.2) ^ 2

/-- The squared deduplication threshold: `(1e-4)^2 = 1e-8`. -/
def threshSq : ℚ := 1 / 100000000

/-- Loop of `_filter`: `prev` is the previous point of the INPUT sequence.
The source updates `prev = p` unconditionally, whether or not `p` was kept. -/
def filterAux (prev : Point) : List Point → List Point
  | [] => []
  | p :: ps =>
    if threshSq < distSq p prev then p :: filterAux p ps
    else filterAux p ps

/-- Embedding of `SvIntersectNurbsCurvesNode._filter`. -/
def _filter (points : List Point) : List Point :=
  match points with
  | [] => []
  | p :: ps => p :: filterAux p ps


/-- The node's `implementation` enum: `NATIVE` (Sverchok) or `FREECAD`. -/
inductive Impl : Type
  | native : Impl
  | freecad : Impl
deriving DecidableEq

/-- The node's `matching` enum: `LONG` or `CROSS`. -/
inductive Matching : Type
  | long : Matching
  | cross : Matching
deriving DecidableEq

/-- The node's `method` enum of numeric minimizers. -/
inductive NMethod : Type
  | nelderMead : NMethod
  | lbfgsb : NMethod
  | slsqp : NMethod
  | powell : NMethod
  | trustConstr : NMethod
deriving DecidableEq

/-- The node's configuration bundle (its Blender properties). -/
structure Config : Type where
  impl : Impl
  matching : Matching
  single : Bool
  precision : ℚ
  method : NMethod
  split : Bool

/-- An input curve as seen by the node: either convertible to NURBS (the
handle `id` stands for the resulting NURBS curve) or not convertible, in
which case `SvNurbsCurve.to_nurbs` returns `None`. -/
inductive InCurve : Type
  | nurbs : Nat → InCurve
  | generic : Nat → InCurve
deriving DecidableEq

/-- Embedding of `SvNurbsCurve.to_nurbs`: succeeds exactly on convertible
curves. -/
def to_nurbs : InCurve → Option Nat
  | .nurbs n => some n
  | .generic _ => none

/-- The numeric intersection backends, abstract over the geometry.
`intersect_nurbs_curves` returns `(u, v, point)` triples (the source keeps
`r[2]`, the point); `intersectCC` is FreeCAD's routine returning points. -/
structure Backend : Type where
  intersect_nurbs_curves : NMethod → ℚ → Nat → Nat → List (ℚ × ℚ × Point)
  intersectCC : Nat → Nat → List Point

/-- Embedding of `process_native`: run the native backend with the configured
method and precision, project out the 3D points, deduplicate. -/
def process_native (cfg : Config) (bk : Backend) (c1 c2 : Nat) : List Point :=
  _filter ((bk.intersect_nurbs_curves cfg.method cfg.precision c1 c2).map
    (fun r => r.2.2))

/-- Embedding of `process_freecad`: run FreeCAD's `intersectCC`, deduplicate. -/
def process_freecad (bk : Backend) (c1 c2 : Nat) : List Point :=
  _filter (bk.intersectCC c1 c2)

/-- The deduplicated point list produced for one adapted curve pair. -/
def intersection_points (cfg : Config) (bk : Backend) (c1 c2 : Nat) : List Point :=
  if cfg.impl = Impl.native then process_native cfg bk c1 c2
  else process_freecad bk c1 c2

/-- Modelled from the spec: `zip_long_repeat` of `sverchok.data_structure` is
not under `src/`.  Per the spec it is an index-wise zip where the shorter
sequence's last element is repeated to match the longer sequence's length
(the spec constrains only non-empty sequences; an empty input yields `[]`). -/
def zip_long_repeat {α β : Type} : List α → List β → List (α × β)
  | [], _ => []
  | _ :: _, [] => []
  | [a], b :: bs => (a, b) :: bs.map (fun y => (a, y))
  | a :: as, [b] => (a, b) :: as.map (fun x => (x, b))
  | a :: as, b :: bs => (a, b) :: zip_long_repeat as bs

/-- Embedding of the node's `match` method: `LONG` uses `zip_long_repeat`;
`CROSS` is the comprehension `[(c1, c2) for c2 in curves2 for c1 in curves1]`
(curves2 outer, curves1 inner). -/
def matchCurves {α β : Type} (m : Matching) (as : List α) (bs : List β) :
    List (α × β) :=
  match m with
  | .long => zip_long_repeat as bs
  | .cross => (bs.map (fun b => as.map (fun a => (a, b)))).flatten

/-- Spec-side formulation of "extend by repeating the final element": pad `l`
to length `n` with copies of its last element (`d` is a dummy default for the
empty list, which the spec leaves unconstrained). -/
def extendRepeat {α : Type} (l : List α) (n : Nat) (d : α) : List α :=
  l ++ List.replicate (n - l.length) (l.getLastD d)


/-- One element of a row's output list.  In the Python all entries are dynamic;
`single` models a bare 3D point appended by single-intersection mode, `many`
models a list of points. -/
inductive Entry : Type
  | single : Point → Entry
  | many : List Point → Entry
deriving DecidableEq

/-- Effectful map over `Except`, modelling a Python `for` loop that appends
to a result list and aborts the whole computation at the first raised
exception. -/
def mapE {α β : Type} (f : α → Except String β) : List α → Except String (List β)
  | [] => .ok []
  | x :: xs =>
    match f x with
    | .error e => .error e
    | .ok y =>
      match mapE f xs with
      | .error e => .error e
      | .ok ys => .ok (y :: ys)

/-- The per-pair body of `process`: adapt both curves to NURBS (raising on
failure), intersect and deduplicate, and in single-intersection mode replace a
non-empty result list by its bare first element. -/
def processPair (cfg : Config) (bk : Backend) (c1 c2 : InCurve) :
    Except String Entry :=
  match to_nurbs c1 with
  | none => .error "Curve1 is not a NURBS"
  | some n1 =>
    match to_nurbs c2 with
    | none => .error "Curve2 is not a NURBS"
    | some n2 =>
      let ps := intersection_points cfg bk n1 n2
      if cfg.single then
        match ps with
        | p :: _ => .ok (.single p)
        | [] => .ok (.many [])
      else .ok (.many ps)

/-- The flat output list of one row: every matched pair, in order. -/
def processRow (cfg : Config) (bk : Backend) (r1 r2 : List InCurve) :
    Except String (List Entry) :=
  mapE (fun cp => processPair cfg bk cp.1 cp.2) (matchCurves cfg.matching r1 r2)

/-- Fuel-driven chunking: split `l` into contiguous chunks of `k` elements
(the fuel, set to `l.length`, only guarantees termination). -/
def chunksGo {α : Type} (k : Nat) : Nat → List α → List (List α)
  | _, [] => []
  | 0, l => [l]
  | fuel + 1, l => l.take k :: chunksGo k fuel (l.drop k)

/-- Modelled from the spec: `split_by_count` of `sverchok.data_structure` is
not under `src/`.  Per the spec it regroups a flat list into `n` contiguous
chunks (for a list of length `len(curves1)*len(curves2)` and `n=len(curves1)`,
`n` chunks of size `len(curves2)` each), i.e. chunks of `⌈length/n⌉` elements. -/
def split_by_count {α : Type} (l : List α) (n : Nat) : List (List α) :=
  chunksGo ((l.length + n - 1) / n) l.length l

/-- A row's output as emitted: a flat list of entries, or — after splitting —
a list of groups of entries. -/
abbrev RowOut : Type := List Entry ⊕ List (List Entry)

/-- One iteration of the outer row loop of `process`: compute the row's flat
output, then regroup it into `len(curve1s)` chunks whenever the `split` flag
is set (the code does not consult the matching mode here). -/
def processRowOut (cfg : Config) (bk : Backend) (r1 r2 : List InCurve) :
    Except String RowOut :=
  match processRow cfg bk r1 r2 with
  | .error e => .error e
  | .ok entries =>
    if cfg.split then .ok (.inr (split_by_count entries r1.length))
    else .ok (.inl entries)

/-- Embedding of `process`: rows are matched by `zip_long_repeat`, each row is
processed in order, and any raised exception aborts the whole batch with no
output. -/
def process (cfg : Config) (bk : Backend) (rows1 rows2 : List (List InCurve)) :
    Except String (List RowOut) :=
  mapE (fun rp => processRowOut cfg bk rp.1 rp.2) (zip_long_repeat rows1 rows2)

/-- A backend finding no intersections at all. -/
def bk0 : Backend where
  intersect_nurbs_curves := fun _ _ _ _ => []
  intersectCC := fun _ _ => []

/-- A backend finding three well-separated points for every pair. -/
def bk3 : Backend where
  intersect_nurbs_curves := fun _ _ _ _ =>
    [((0 : ℚ), (0 : ℚ), ((0 : ℚ), (0 : ℚ), (0 : ℚ))),
     ((0 : ℚ), (0 : ℚ), ((1 : ℚ), (0 : ℚ), (0 : ℚ))),
     ((0 : ℚ), (0 : ℚ), ((2 : ℚ), (0 : ℚ), (0 : ℚ)))]
  intersectCC := fun _ _ => []

/-- A concrete configuration: native backend, cross matching, single mode,
split mode. -/
def cfg0 : Config where
  impl := Impl.native
  matching := Matching.cross
  single := true
  precision := 1/1000
  method := NMethod.nelderMead
  split := true

/-- Like `cfg0` but with longest matching. -/
def cfgLong : Config where
  impl := Impl.native
  matching := Matching.long
  single := true
  precision := 1/1000
  method := NMethod.nelderMead
  split := true

lemma filterAux_sublist (l : List Point) : ∀ prev, List.Sublist (filterAux prev l) l := by
  induction l with
  | nil => intro prev; simp [filterAux]
  | cons p ps ih =>
    intro prev
    simp only [filterAux]
    by_cases h : threshSq < distSq p prev
    · rw [if_pos h]
      exact List.Sublist.cons₂ p (ih p)
    · rw [if_neg h]
      exact List.Sublist.cons p (ih p)

lemma filterAux_eq_zip (l : List Point) : ∀ prev,
    filterAux prev l
      = ((l.zip (prev :: l)).filter
          (fun q => decide (threshSq < distSq q.1 q.2))).map Prod.fst := by
  induction l with
  | nil => intro prev; rfl
  | cons p ps ih =>
    intro prev
    simp only [filterAux, List.zip_cons_cons, List.filter_cons]
    by_cases h : threshSq < distSq p prev
    · simp [h, ih p]
    · simp [h, ih p]

/-- C1 counterexample input: `p = (0,0,0)`, `p+e = (5e-5,0,0)`, `q = (1.2e-4,0,0)`.
Here `|e| = 5e-5 < 1e-4` and `|q-p| = 1.2e-4 > 1e-4`, so the claim predicts
output `[p, q]`; the code drops `q` because `|q-(p+e)| = 7e-5 ≤ 1e-4`. -/
theorem C1_counterexample :
    distSq ((0 : ℚ), (0 : ℚ), (0 : ℚ)) ((1/20000 : ℚ), (0 : ℚ), (0 : ℚ)) < threshSq
    ∧ threshSq < distSq ((0 : ℚ), (0 : ℚ), (0 : ℚ)) ((3/25000 : ℚ), (0 : ℚ), (0 : ℚ))
    ∧ _filter [((0 : ℚ), (0 : ℚ), (0 : ℚ)), ((1/20000 : ℚ), (0 : ℚ), (0 : ℚ)),
               ((3/25000 : ℚ), (0 : ℚ), (0 : ℚ))]
        = [((0 : ℚ), (0 : ℚ), (0 : ℚ))]
    ∧ _filter [((0 : ℚ), (0 : ℚ), (0 : ℚ)), ((1/20000 : ℚ), (0 : ℚ), (0 : ℚ)),
               ((3/25000 : ℚ), (0 : ℚ), (0 : ℚ))]
        ≠ [((0 : ℚ), (0 : ℚ), (0 : ℚ)), ((3/25000 : ℚ), (0 : ℚ), (0 : ℚ))] := by
  refine ⟨by norm_num [distSq, threshSq], by norm_num [distSq, threshSq], ?_, ?_⟩ <;>
    norm_num [_filter, filterAux, distSq, threshSq]

/-- C1 (amended): the filter keeps the first point unconditionally, and keeps each
subsequent point iff its distance to the IMMEDIATELY PRECEDING INPUT point (kept
or dropped) exceeds `1e-4`; in particular for `[p, p+e, q]` with `|e| ≤ 1e-4`
and `|q-(p+e)| > 1e-4` the output is `[p, q]`. -/
theorem C1_amended :
    (∀ (p : Point) (ps : List Point),
      _filter (p :: ps)
        = p :: ((ps.zip (p :: ps)).filter
            (fun q => decide (threshSq < distSq q.1 q.2))).map Prod.fst)
    ∧ (∀ p e q : Point, distSq e p ≤ threshSq → threshSq < distSq q e →
        _filter [p, e, q] = [p, q]) := by
  constructor
  · intro p ps
    simp only [_filter]
    rw [filterAux_eq_zip]
  · intro p e q h1 h2
    simp only [_filter, filterAux, if_neg (not_lt.mpr h1), if_pos h2]

/-- C1 witness: the amended claim at a concrete input. -/
theorem C1_witness :
    _filter [((0 : ℚ), (0 : ℚ), (0 : ℚ)), ((1/20000 : ℚ), (0 : ℚ), (0 : ℚ)),
             ((1 : ℚ), (0 : ℚ), (0 : ℚ))]
      = [((0 : ℚ), (0 : ℚ), (0 : ℚ)), ((1 : ℚ), (0 : ℚ), (0 : ℚ))] :=
  C1_amended.2 ((0 : ℚ), (0 : ℚ), (0 : ℚ)) ((1/20000 : ℚ), (0 : ℚ), (0 : ℚ))
    ((1 : ℚ), (0 : ℚ), (0 : ℚ))
    (by norm_num [distSq, threshSq]) (by norm_num [distSq, threshSq])

/-- C8: the filter's output is an order-preserving subsequence of its input
(hence every output point is an input point and appears in input order), its
length never exceeds the input length, and the empty input maps to the empty
output. -/
theorem C8_subsequence :
    (∀ ps : List Point, List.Sublist (_filter ps) ps)
    ∧ (∀ ps : List Point, (_filter ps).length ≤ ps.length)
    ∧ _filter [] = [] := by
  have hsub : ∀ ps : List Point, List.Sublist (_filter ps) ps := by
    intro ps
    cases ps with
    | nil => simp [_filter]
    | cons p ps => exact List.Sublist.cons₂ p (filterAux_sublist ps p)
  exact ⟨hsub, fun ps => (hsub ps).length_le, rfl⟩
lemma cross_cons {α β : Type} (as : List α) (b : β) (bs : List β) :
    matchCurves Matching.cross as (b :: bs)
      = as.map (fun a => (a, b)) ++ matchCurves Matching.cross as bs := rfl

lemma cross_length {α β : Type} (as : List α) (bs : List β) :
    (matchCurves Matching.cross as bs).length = as.length * bs.length := by
  induction bs with
  | nil => simp [matchCurves]
  | cons b bs ih =>
    simp only [cross_cons, List.length_append, List.length_map, ih, List.length_cons]
    ring

lemma cross_eq_product {α β : Type} (as : List α) (bs : List β) :
    matchCurves Matching.cross as bs = (bs.product as).map Prod.swap := by
  induction bs with
  | nil => simp [matchCurves, List.product]
  | cons b bs ih =>
    simp only [cross_cons, List.product, List.flatMap_cons, List.map_append, ih,
      List.map_map]
    rfl

/-- C4: cross-pairing is the full Cartesian product with curves2 as the outer
loop and curves1 as the inner loop (equivalently, `product curves2 curves1`
with components swapped), its pair count is `len(curves1) * len(curves2)`,
and on `curves1=[a,b]`, `curves2=[x,y]` it yields `[(a,x),(b,x),(a,y),(b,y)]`. -/
theorem C4_cross_pairing :
    (∀ (as bs : List InCurve),
      matchCurves Matching.cross as bs = (bs.product as).map Prod.swap
      ∧ (matchCurves Matching.cross as bs).length = as.length * bs.length)
    ∧ (∀ a b x y : InCurve,
      matchCurves Matching.cross [a, b] [x, y] = [(a, x), (b, x), (a, y), (b, y)]) := by
  refine ⟨fun as bs => ⟨cross_eq_product as bs, cross_length as bs⟩, fun a b x y => ?_⟩
  rfl

lemma zip_replicate_left {α β : Type} (x : α) (l : List β) :
    (List.replicate l.length x).zip l = l.map (fun y => (x, y)) := by
  induction l with
  | nil => rfl
  | cons b bs ih => simp [List.replicate_succ, ih]

lemma zip_replicate_right {α β : Type} (y : β) (l : List α) :
    l.zip (List.replicate l.length y) = l.map (fun x => (x, y)) := by
  induction l with
  | nil => rfl
  | cons a as ih => simp [List.replicate_succ, ih]

lemma extendRepeat_cons {α : Type} (a : α) (as : List α) (m : Nat) (d : α) :
    extendRepeat (a :: as) (m + 1) d = a :: extendRepeat as m a := by
  show (a :: as) ++ List.replicate (m + 1 - (a :: as).length) ((a :: as).getLastD d)
    = a :: (as ++ List.replicate (m - as.length) (as.getLastD a))
  rw [List.getLastD_cons, List.length_cons, Nat.succ_sub_succ, List.cons_append]

lemma zlr_eq_extend {α β : Type} (as : List α) (bs : List β) : ∀ (d1 : α) (d2 : β),
    as ≠ [] → bs ≠ [] →
    zip_long_repeat as bs
      = (extendRepeat as (max as.length bs.length) d1).zip
        (extendRepeat bs (max as.length bs.length) d2) := by
  induction as, bs using zip_long_repeat.induct with
  | case1 bs => intro d1 d2 h1 _; exact absurd rfl h1
  | case2 a as => intro d1 d2 _ h2; exact absurd rfl h2
  | case3 a b bs =>
    intro d1 d2 _ _
    have hmax : max ([a] : List α).length (b :: bs).length = bs.length + 1 := by
      simp
    rw [hmax]
    simp only [zip_long_repeat]
    rw [extendRepeat_cons, extendRepeat_cons]
    simp [extendRepeat, zip_replicate_left]
  | case4 a as b hne =>
    intro d1 d2 _ _
    have has : as ≠ [] := fun h => hne h
    have hmax : max (a :: as).length ([b] : List β).length = as.length + 1 := by
      simp
    rw [hmax, extendRepeat_cons, extendRepeat_cons]
    have hLHS : zip_long_repeat (a :: as) [b] = (a, b) :: as.map (fun x => (x, b)) := by
      cases as with
      | nil => exact absurd rfl has
      | cons a' as' => simp [zip_long_repeat]
    rw [hLHS]
    simp [extendRepeat, zip_replicate_right]
  | case5 a as b bs hne1 hne2 ih =>
    intro d1 d2 _ _
    have has : as ≠ [] := fun h => hne1 h
    have hbs : bs ≠ [] := fun h => hne2 h
    have hmax : max (a :: as).length (b :: bs).length = max as.length bs.length + 1 := by
      simp [Nat.succ_max_succ]
    rw [hmax, extendRepeat_cons, extendRepeat_cons, List.zip_cons_cons,
      ← ih a b has hbs]
    cases as with
    | nil => exact absurd rfl has
    | cons a' as' =>
      cases bs with
      | nil => exact absurd rfl hbs
      | cons b' bs' => simp [zip_long_repeat]

lemma extendRepeat_length {α : Type} (l : List α) (n : Nat) (d : α) :
    (extendRepeat l n d).length = max l.length n := by
  simp [extendRepeat]
  omega

lemma zlr_length {α β : Type} (as : List α) (bs : List β)
    (h1 : as ≠ []) (h2 : bs ≠ []) :
    (zip_long_repeat as bs).length = max as.length bs.length := by
  classical
  rcases as with _ | ⟨a, as⟩
  · exact absurd rfl h1
  rcases bs with _ | ⟨b, bs⟩
  · exact absurd rfl h2
  rw [zlr_eq_extend (a :: as) (b :: bs) a b h1 h2, List.length_zip,
    extendRepeat_length, extendRepeat_length]
  omega

/-- C5: for non-empty inputs, longest-pairing is the index-wise zip of the two
sequences after the shorter one is extended by repeating its final element,
its pair count is `max(len(curves1), len(curves2))`, and on `curves1=[a,b,c]`,
`curves2=[x,y]` it yields `[(a,x),(b,y),(c,y)]`. -/
theorem C5_longest_pairing :
    (∀ (as bs : List InCurve) (d1 d2 : InCurve), as ≠ [] → bs ≠ [] →
      zip_long_repeat as bs
        = (extendRepeat as (max as.length bs.length) d1).zip
          (extendRepeat bs (max as.length bs.length) d2)
      ∧ (zip_long_repeat as bs).length = max as.length bs.length)
    ∧ (∀ a b c x y : InCurve,
      zip_long_repeat [a, b, c] [x, y] = [(a, x), (b, y), (c, y)]) := by
  refine ⟨fun as bs d1 d2 h1 h2 =>
    ⟨zlr_eq_extend as bs d1 d2 h1 h2, zlr_length as bs h1 h2⟩,
    fun a b c x y => by simp [zip_long_repeat]⟩

/-- C5 witness: the longest-pairing characterization at a concrete input. -/
theorem C5_witness :
    zip_long_repeat [InCurve.nurbs 0] [InCurve.nurbs 1, InCurve.nurbs 2]
      = (extendRepeat [InCurve.nurbs 0]
          (max [InCurve.nurbs 0].length [InCurve.nurbs 1, InCurve.nurbs 2].length)
          (InCurve.nurbs 9)).zip
        (extendRepeat [InCurve.nurbs 1, InCurve.nurbs 2]
          (max [InCurve.nurbs 0].length [InCurve.nurbs 1, InCurve.nurbs 2].length)
          (InCurve.nurbs 9)) :=
  (C5_longest_pairing.1 [InCurve.nurbs 0] [InCurve.nurbs 1, InCurve.nurbs 2]
    (InCurve.nurbs 9) (InCurve.nurbs 9) (by simp) (by simp)).1

lemma mapE_ok_length {α β : Type} (f : α → Except String β) :
    ∀ (l : List α) (ys : List β), mapE f l = .ok ys → ys.length = l.length := by
  intro l
  induction l with
  | nil =>
    intro ys h
    simp only [mapE] at h
    cases h
    rfl
  | cons x xs ih =>
    intro ys h
    simp only [mapE] at h
    cases hfx : f x with
    | error e => rw [hfx] at h; cases h
    | ok v =>
      rw [hfx] at h
      cases hm : mapE f xs with
      | error e => rw [hm] at h; cases h
      | ok vs =>
        rw [hm] at h
        cases h
        simp [ih vs hm]

lemma mapE_error_of_mem {α β : Type} (f : α → Except String β) (l : List α)
    (x : α) (hx : x ∈ l) (he : ∃ e, f x = .error e) :
    ∃ e, mapE f l = .error e := by
  induction l with
  | nil => exact absurd hx (List.not_mem_nil x)
  | cons y ys ih =>
    simp only [mapE]
    cases hfy : f y with
    | error e => exact ⟨e, rfl⟩
    | ok v =>
      have hx' : x ∈ ys := by
        rcases List.mem_cons.mp hx with rfl | h
        · rcases he with ⟨e, he⟩
          rw [he] at hfy
          cases hfy
        · exact h
      rcases ih hx' with ⟨e, hmap⟩
      rw [hmap]
      exact ⟨e, rfl⟩

lemma chunksGo_exact {α : Type} (k : Nat) (hk : 0 < k) :
    ∀ (a : Nat) (l : List α) (fuel : Nat), l.length = a * k → l.length ≤ fuel →
    (chunksGo k fuel l).length = a ∧ ∀ c ∈ chunksGo k fuel l, c.length = k := by
  intro a
  induction a with
  | zero =>
    intro l fuel hlen _
    have hnil : l = [] := List.eq_nil_of_length_eq_zero (by simpa using hlen)
    subst hnil
    cases fuel <;> simp [chunksGo]
  | succ a ih =>
    intro l fuel hlen hfuel
    have hmul : l.length = a * k + k := by rw [hlen, Nat.succ_mul]
    have hlpos : 0 < l.length := by omega
    obtain ⟨f, rfl⟩ : ∃ f, fuel = f + 1 := by
      cases fuel with
      | zero => omega
      | succ f => exact ⟨f, rfl⟩
    obtain ⟨x, xs, rfl⟩ : ∃ x xs, l = x :: xs := by
      cases l with
      | nil => simp at hlpos
      | cons x xs => exact ⟨x, xs, rfl⟩
    have hstep : chunksGo k (f + 1) (x :: xs)
        = (x :: xs).take k :: chunksGo k f ((x :: xs).drop k) := rfl
    have hdrop_len : ((x :: xs).drop k).length = a * k := by
      rw [List.length_drop]
      omega
    have hdrop_fuel : ((x :: xs).drop k).length ≤ f := by
      rw [List.length_drop]
      omega
    obtain ⟨ihlen, ihall⟩ := ih ((x :: xs).drop k) f hdrop_len hdrop_fuel
    rw [hstep]
    refine ⟨by simp [ihlen], ?_⟩
    intro c hc
    rcases List.mem_cons.mp hc with rfl | hc'
    · rw [List.length_take]
      omega
    · exact ihall c hc'

lemma split_by_count_exact {α : Type} (l : List α) (n1 n2 : Nat)
    (h1 : 0 < n1) (h2 : 0 < n2) (hlen : l.length = n1 * n2) :
    (split_by_count l n1).length = n1
    ∧ ∀ c ∈ split_by_count l n1, c.length = n2 := by
  have hk : (l.length + n1 - 1) / n1 = n2 := by
    rw [hlen]
    have hsplit : n1 * n2 + n1 - 1 = n1 * n2 + (n1 - 1) := by omega
    rw [hsplit, Nat.mul_add_div h1, Nat.div_eq_of_lt (by omega)]
    omega
  rw [split_by_count, hk]
  exact chunksGo_exact n2 h2 n1 l l.length (by rw [hlen, Nat.mul_comm]) le_rfl

/-- C3: in single-intersection mode (with both curves adaptable), a pair whose
deduplicated point list is non-empty yields exactly its first-found point, and
a pair with no points yields an empty result rather than an error. -/
theorem C3_single_truncation (cfg : Config) (bk : Backend) (c1 c2 : InCurve)
    (n1 n2 : Nat) (hs : cfg.single = true)
    (h1 : to_nurbs c1 = some n1) (h2 : to_nurbs c2 = some n2) :
    processPair cfg bk c1 c2
      = .ok (match (intersection_points cfg bk n1 n2).head? with
             | some p => Entry.single p
             | none => Entry.many []) := by
  simp only [processPair, h1, h2, hs, if_true]
  cases hps : intersection_points cfg bk n1 n2 with
  | nil => simp
  | cons p rest => simp

/-- C3 witness: with a backend finding three separated points, the single-mode
result is the first of the three. -/
theorem C3_witness :
    processPair cfg0 bk3 (InCurve.nurbs 0) (InCurve.nurbs 1)
      = .ok (Entry.single ((0 : ℚ), (0 : ℚ), (0 : ℚ))) := by
  rw [C3_single_truncation cfg0 bk3 (InCurve.nurbs 0) (InCurve.nurbs 1) 0 1
    rfl rfl rfl]
  norm_num [intersection_points, process_native, _filter, filterAux, distSq,
    threshSq, bk3, cfg0]

/-- C10: in single-intersection mode the entry appended for a found pair is
the bare point itself — a different constructor from every point-list entry,
in particular from the one-element list — while an empty pair contributes an
empty point list. -/
theorem C10_bare_point (cfg : Config) (bk : Backend) (c1 c2 : InCurve)
    (n1 n2 : Nat) (hs : cfg.single = true)
    (h1 : to_nurbs c1 = some n1) (h2 : to_nurbs c2 = some n2) :
    (∀ (p : Point) (rest : List Point),
      intersection_points cfg bk n1 n2 = p :: rest →
      processPair cfg bk c1 c2 = .ok (Entry.single p)
      ∧ ∀ qs : List Point, Entry.single p ≠ Entry.many qs)
    ∧ (intersection_points cfg bk n1 n2 = [] →
      processPair cfg bk c1 c2 = .ok (Entry.many [])) := by
  constructor
  · intro p rest hps
    refine ⟨?_, fun qs hcon => Entry.noConfusion hcon⟩
    simp [processPair, h1, h2, hs, hps]
  · intro hps
    simp [processPair, h1, h2, hs, hps]

/-- C10 witness: the found case emits a bare point, the empty case an empty
list. -/
theorem C10_witness :
    processPair cfgLong bk3 (InCurve.nurbs 0) (InCurve.nurbs 1)
      = .ok (Entry.single ((0 : ℚ), (0 : ℚ), (0 : ℚ)))
    ∧ processPair cfgLong bk0 (InCurve.nurbs 0) (InCurve.nurbs 1)
      = .ok (Entry.many []) := by
  constructor
  · refine ((C10_bare_point cfgLong bk3 (InCurve.nurbs 0) (InCurve.nurbs 1) 0 1
      rfl rfl rfl).1 ((0 : ℚ), (0 : ℚ), (0 : ℚ))
      [((1 : ℚ), (0 : ℚ), (0 : ℚ)), ((2 : ℚ), (0 : ℚ), (0 : ℚ))] ?_).1
    norm_num [intersection_points, process_native, _filter, filterAux, distSq,
      threshSq, bk3, cfgLong]
  · exact (C10_bare_point cfgLong bk0 (InCurve.nurbs 0) (InCurve.nurbs 1) 0 1
      rfl rfl rfl).2 rfl

/-- C6: if NURBS adaptation fails for either curve of any matched pair in any
row, the whole batch computation yields an error and no output at all. -/
theorem C6_abort_on_adaptation_failure (cfg : Config) (bk : Backend)
    (rows1 rows2 : List (List InCurve))
    (h : ∃ rp ∈ zip_long_repeat rows1 rows2,
         ∃ cp ∈ matchCurves cfg.matching rp.1 rp.2,
         to_nurbs cp.1 = none ∨ to_nurbs cp.2 = none) :
    ∃ e, process cfg bk rows1 rows2 = .error e := by
  rcases h with ⟨rp, hrp, cp, hcp, hfail⟩
  apply mapE_error_of_mem _ _ rp hrp
  have hpair : ∃ e, processPair cfg bk cp.1 cp.2 = .error e := by
    rcases hfail with hf | hf
    · exact ⟨"Curve1 is not a NURBS", by simp [processPair, hf]⟩
    · cases hc1 : to_nurbs cp.1 with
      | none => exact ⟨"Curve1 is not a NURBS", by simp [processPair, hc1]⟩
      | some m => exact ⟨"Curve2 is not a NURBS", by simp [processPair, hc1, hf]⟩
  rcases mapE_error_of_mem (fun q => processPair cfg bk q.1 q.2)
    (matchCurves cfg.matching rp.1 rp.2) cp hcp hpair with ⟨e, he⟩
  exact ⟨e, by simp [processRowOut, processRow] at he ⊢; simp [he]⟩

/-- C6 witness: a single non-convertible curve aborts the batch. -/
theorem C6_witness :
    ∃ e, process cfg0 bk0 [[InCurve.generic 0]] [[InCurve.nurbs 0]]
      = .error e := by
  apply C6_abort_on_adaptation_failure cfg0 bk0
  exact ⟨([InCurve.generic 0], [InCurve.nurbs 0]), by simp [zip_long_repeat],
    (InCurve.generic 0, InCurve.nurbs 0), by simp [matchCurves, cfg0],
    Or.inl rfl⟩

/-- C7: the pipeline is deterministic — identical configuration, backend and
input collections yield identical output. -/
theorem C7_deterministic (cfg₁ cfg₂ : Config) (bk₁ bk₂ : Backend)
    (x₁ x₂ y₁ y₂ : List (List InCurve))
    (hc : cfg₁ = cfg₂) (hb : bk₁ = bk₂) (hx : x₁ = x₂) (hy : y₁ = y₂) :
    process cfg₁ bk₁ x₁ y₁ = process cfg₂ bk₂ x₂ y₂ := by
  subst hc
  subst hb
  subst hx
  subst hy
  rfl

/-- C7 witness: two runs on a concrete input coincide. -/
theorem C7_witness :
    process cfg0 bk0 [[InCurve.nurbs 0]] [[InCurve.nurbs 0]]
      = process cfg0 bk0 [[InCurve.nurbs 0]] [[InCurve.nurbs 0]] :=
  C7_deterministic cfg0 cfg0 bk0 bk0 _ _ _ _ rfl rfl rfl rfl

/-- C2 counterexample: with the split flag on but LONGEST matching selected,
the code still reshapes the row (the spec's "exactly when ... AND
cross-pairing" condition is false). -/
theorem C2_counterexample :
    cfgLong.split = true
    ∧ cfgLong.matching ≠ Matching.cross
    ∧ processRowOut cfgLong bk0 [InCurve.nurbs 0] [InCurve.nurbs 0]
        = .ok (.inr [[Entry.many []]]) := by
  refine ⟨rfl, by decide, ?_⟩
  rfl

/-- C2 (amended): the reshaping step runs exactly when the split flag is
enabled, regardless of the pairing policy; when cross-pairing was selected the
row's flat output has length `len(curves1)*len(curves2)` and is regrouped into
`len(curves1)` contiguous chunks of `len(curves2)` entries each. -/
theorem C2_split_reshaping (cfg : Config) (bk : Backend)
    (r1 r2 : List InCurve) (entries : List Entry)
    (h : processRow cfg bk r1 r2 = .ok entries) :
    (cfg.split = true →
      processRowOut cfg bk r1 r2
        = .ok (.inr (split_by_count entries r1.length)))
    ∧ (cfg.split = false → processRowOut cfg bk r1 r2 = .ok (.inl entries))
    ∧ (cfg.matching = Matching.cross →
        entries.length = r1.length * r2.length)
    ∧ (cfg.matching = Matching.cross → 0 < r1.length → 0 < r2.length →
        (split_by_count entries r1.length).length = r1.length
        ∧ ∀ c ∈ split_by_count entries r1.length, c.length = r2.length) := by
  have hlen : entries.length = (matchCurves cfg.matching r1 r2).length :=
    mapE_ok_length _ _ _ h
  refine ⟨?_, ?_, ?_, ?_⟩
  · intro hsplit
    simp [processRowOut, h, hsplit]
  · intro hsplit
    simp [processRowOut, h, hsplit]
  · intro hm
    rw [hlen, hm, cross_length]
  · intro hm hp1 hp2
    exact split_by_count_exact entries r1.length r2.length hp1 hp2
      (by rw [hlen, hm, cross_length])

/-- C2 witness: the amended claim at a concrete cross-pairing input of shape
1 × 2. -/
theorem C2_witness :
    processRowOut cfg0 bk0 [InCurve.nurbs 0] [InCurve.nurbs 0, InCurve.nurbs 1]
      = .ok (.inr (split_by_count [Entry.many [], Entry.many []] 1)) :=
  (C2_split_reshaping cfg0 bk0 [InCurve.nurbs 0]
    [InCurve.nurbs 0, InCurve.nurbs 1] [Entry.many [], Entry.many []] rfl).1 rfl

/-- C9: whenever the split flag is on, the row is regrouped using
`len(curves1)` whatever the pairing policy; with longest-pairing on non-empty
rows the flat output length is `max(len(curves1), len(curves2))`. -/
theorem C9_split_regardless_of_policy (cfg : Config) (bk : Backend)
    (r1 r2 : List InCurve) (entries : List Entry)
    (hsplit : cfg.split = true)
    (h : processRow cfg bk r1 r2 = .ok entries) :
    processRowOut cfg bk r1 r2
      = .ok (.inr (split_by_count entries r1.length))
    ∧ (cfg.matching = Matching.long → r1 ≠ [] → r2 ≠ [] →
        entries.length = max r1.length r2.length) := by
  constructor
  · simp [processRowOut, h, hsplit]
  · intro hm h1 h2
    have hlen : entries.length = (matchCurves cfg.matching r1 r2).length :=
      mapE_ok_length _ _ _ h
    rw [hlen, hm]
    exact zlr_length r1 r2 h1 h2

/-- C9 witness: longest matching with the split flag on still reshapes, at a
concrete 1 × 2 input. -/
theorem C9_witness :
    processRowOut cfgLong bk0 [InCurve.nurbs 0]
        [InCurve.nurbs 0, InCurve.nurbs 1]
      = .ok (.inr (split_by_count [Entry.many [], Entry.many []] 1)) :=
  (C9_split_regardless_of_policy cfgLong bk0 [InCurve.nurbs 0]
    [InCurve.nurbs 0, InCurve.nurbs 1] [Entry.many [], Entry.many []]
    rfl rfl).1

end IntersectCurves
